import Mathlib

/-!
Verification of the line-buffered serial console engine of `vznncv-miniterm`
(`src/vznncv/miniterm/_miniterm.py`) via a shallow embedding.

Bytes are modelled as `Nat` (values < 256 in practice), byte strings as
`List Nat`, and Python text as `List Char`.
-/

namespace Miniterm

/-- Model of Python's `bytes.split(sep)` for a single-byte separator `sep`,
as used in `_SerialOutput._consume_data` (`data.split(self._newline_sep)`):
splits on every occurrence of `sep`, so the result has one more piece than
there are occurrences of `sep`; `b"".split(sep)` gives one empty piece. -/
def bytesSplit (sep : Nat) : List Nat → List (List Nat)
  | [] => [[]]
  | b :: rest =>
    if b = sep then [] :: bytesSplit sep rest
    else
      match bytesSplit sep rest with
      | [] => [[b]]
      | blk :: blks => (b :: blk) :: blks

theorem bytesSplit_ne_nil (sep : Nat) (l : List Nat) : bytesSplit sep l ≠ [] := by
  induction l with
  | nil => simp [bytesSplit]
  | cons b rest ih =>
    simp only [bytesSplit]
    split
    · simp
    · cases h : bytesSplit sep rest with
      | nil => simp
      | cons blk blks => simp [h]

theorem bytesSplit_exists_cons (sep : Nat) (l : List Nat) :
    ∃ c cs, bytesSplit sep l = c :: cs := by
  cases h : bytesSplit sep l with
  | nil => exact absurd h (bytesSplit_ne_nil sep l)
  | cons c cs => exact ⟨c, cs, rfl⟩

/-- The `for next_block in data_blocks[1:]` loop of `_SerialOutput._consume_data`:
given the current pending buffer `buf` (a list of byte fragments, mirroring
`self._buf`) and the remaining split blocks, emit for each block the raw line
`b''.join(self._buf)`, reset the buffer to just that block, and return the
final buffer together with the emitted raw lines, in emission order. -/
def consumeGo : List (List Nat) → List (List Nat) → List (List Nat) × List (List Nat)
  | buf, [] => (buf, [])
  | buf, nb :: rest =>
    let raw := buf.flatten
    let r := consumeGo [nb] rest
    (r.1, raw :: r.2)

/-- `_SerialOutput._consume_data(data)`: split `data` on the separator byte,
append the first block to the pending buffer, then run the emission loop.
Returns the new pending buffer and the emitted raw lines (the raw byte lines
before UTF-8 decoding and the `rx` transform). -/
def consumeData (sep : Nat) (buf : List (List Nat)) (data : List Nat) :
    List (List Nat) × List (List Nat) :=
  match bytesSplit sep data with
  | [] => (buf, [])
  | b0 :: rest => consumeGo (buf ++ [b0]) rest

/-- Repeated `data_received` calls: feed a list of chunks to `_consume_data`
in order, starting from pending buffer `buf`; collect all emitted raw lines. -/
def consumeChunks (sep : Nat) (buf : List (List Nat)) :
    List (List Nat) → List (List Nat) × List (List Nat)
  | [] => (buf, [])
  | c :: cs =>
    let r1 := consumeData sep buf c
    let r2 := consumeChunks sep r1.1 cs
    (r2.1, r1.2 ++ r2.2)

/-- The flush in `_SerialOutput.connection_lost`: exactly one final
`_consume_data(self._newline_sep)` call with the synthetic single-separator
chunk; its emitted raw lines. -/
def connectionLostLines (sep : Nat) (buf : List (List Nat)) : List (List Nat) :=
  (consumeData sep buf [sep]).2

/-- All raw lines emitted during a session: the chunks are consumed in order
starting from the empty pending buffer (`self._buf = []` after
`connection_made`), then the connection is lost and the final flush runs. -/
def sessionRawLines (sep : Nat) (chunks : List (List Nat)) : List (List Nat) :=
  let r := consumeChunks sep [] chunks
  r.2 ++ connectionLostLines sep r.1

/-! ### A byte-at-a-time abstraction of the reassembler

`_consume_data` only ever uses the pending buffer through its concatenation
`b''.join(self._buf)`, so the reassembler is equivalent to a machine that
processes one byte at a time over the state (joined pending bytes, emitted
raw lines). -/

/-- One byte of reassembler work on the abstract state: a separator byte emits
the joined pending bytes and clears them, any other byte is appended. -/
def stepByte (sep : Nat) (st : List Nat × List (List Nat)) (b : Nat) :
    List Nat × List (List Nat) :=
  if b = sep then ([], st.2 ++ [st.1]) else (st.1 ++ [b], st.2)

/-- Run the byte-at-a-time machine over a byte string. -/
def runBytes (sep : Nat) (st : List Nat × List (List Nat)) (data : List Nat) :
    List Nat × List (List Nat) :=
  data.foldl (stepByte sep) st

theorem runBytes_append (sep : Nat) (st : List Nat × List (List Nat))
    (d1 d2 : List Nat) :
    runBytes sep st (d1 ++ d2) = runBytes sep (runBytes sep st d1) d2 := by
  simp [runBytes, List.foldl_append]

theorem consumeData_abs (sep : Nat) :
    ∀ (data : List Nat) (buf : List (List Nat)) (em : List (List Nat)),
      runBytes sep (buf.flatten, em) data
        = ((consumeData sep buf data).1.flatten, em ++ (consumeData sep buf data).2) := by
  intro data
  induction data with
  | nil =>
    intro buf em
    simp [runBytes, consumeData, bytesSplit, consumeGo]
  | cons b rest ih =>
    intro buf em
    by_cases hb : b = sep
    · subst hb
      have hstep : runBytes b (buf.flatten, em) (b :: rest)
          = runBytes b (([] : List Nat), em ++ [buf.flatten]) rest := by
        simp [runBytes, stepByte]
      rw [hstep]
      have h0 : (([] : List Nat), em ++ [buf.flatten])
          = ((([] : List (List Nat))).flatten, em ++ [buf.flatten]) := by simp
      rw [h0, ih]
      obtain ⟨c0, ct, hsplit⟩ := bytesSplit_exists_cons b rest
      simp [consumeData, bytesSplit, hsplit, consumeGo]
    · have hstep : runBytes sep (buf.flatten, em) (b :: rest)
          = runBytes sep (buf.flatten ++ [b], em) rest := by
        simp [runBytes, stepByte, hb]
      rw [hstep]
      have h0 : (buf.flatten ++ [b], em) = ((buf ++ [[b]]).flatten, em) := by simp
      rw [h0, ih]
      obtain ⟨c0, ct, hsplit⟩ := bytesSplit_exists_cons sep rest
      have hsplit2 : bytesSplit sep (b :: rest) = (b :: c0) :: ct := by
        simp [bytesSplit, hb, hsplit]
      cases ct with
      | nil => simp [consumeData, hsplit, hsplit2, consumeGo]
      | cons c1 cts => simp [consumeData, hsplit, hsplit2, consumeGo]

/-- Prepend pending bytes to the first block of a block list. -/
def consHead (pre : List Nat) : List (List Nat) → List (List Nat)
  | [] => [pre]
  | c :: cs => (pre ++ c) :: cs

theorem consHead_nil (sep : Nat) (l : List Nat) :
    consHead [] (bytesSplit sep l) = bytesSplit sep l := by
  obtain ⟨c, cs, h⟩ := bytesSplit_exists_cons sep l
  simp [h, consHead]

/-- Emissions plus final pending bytes of the byte machine are exactly the
split blocks of the input, the first one extended by the starting pending
bytes. -/
theorem runBytes_split (sep : Nat) :
    ∀ (data : List Nat) (buf : List Nat) (em : List (List Nat)),
      (runBytes sep (buf, em) data).2 ++ [(runBytes sep (buf, em) data).1]
        = em ++ consHead buf (bytesSplit sep data) := by
  intro data
  induction data with
  | nil =>
    intro buf em
    simp [runBytes, bytesSplit, consHead]
  | cons b rest ih =>
    intro buf em
    by_cases hb : b = sep
    · subst hb
      have hstep : runBytes b (buf, em) (b :: rest)
          = runBytes b (([] : List Nat), em ++ [buf]) rest := by
        simp [runBytes, stepByte]
      rw [hstep, ih]
      obtain ⟨c0, ct, hsplit⟩ := bytesSplit_exists_cons b rest
      simp [bytesSplit, hsplit, consHead]
    · have hstep : runBytes sep (buf, em) (b :: rest)
          = runBytes sep (buf ++ [b], em) rest := by
        simp [runBytes, stepByte, hb]
      rw [hstep, ih]
      obtain ⟨c0, ct, hsplit⟩ := bytesSplit_exists_cons sep rest
      have hsplit2 : bytesSplit sep (b :: rest) = (b :: c0) :: ct := by
        simp [bytesSplit, hb, hsplit]
      simp [hsplit, hsplit2, consHead]

/-- Byte conservation for the byte machine: each emitted line followed by one
separator byte, then the pending bytes, reconstructs everything consumed. -/
theorem runBytes_conserve (sep : Nat) :
    ∀ (data : List Nat) (buf : List Nat) (em : List (List Nat)),
      ((runBytes sep (buf, em) data).2.map (fun l => l ++ [sep])).flatten
          ++ (runBytes sep (buf, em) data).1
        = (em.map (fun l => l ++ [sep])).flatten ++ buf ++ data := by
  intro data
  induction data with
  | nil => intro buf em; simp [runBytes]
  | cons b rest ih =>
    intro buf em
    by_cases hb : b = sep
    · subst hb
      have hstep : runBytes b (buf, em) (b :: rest)
          = runBytes b (([] : List Nat), em ++ [buf]) rest := by
        simp [runBytes, stepByte]
      rw [hstep, ih]
      simp
    · have hstep : runBytes sep (buf, em) (b :: rest)
          = runBytes sep (buf ++ [b], em) rest := by
        simp [runBytes, stepByte, hb]
      rw [hstep, ih]
      simp

/-- Abstraction of a whole sequence of `data_received` calls: consuming the
chunks equals running the byte machine over their concatenation. -/
theorem consumeChunks_abs (sep : Nat) :
    ∀ (chunks : List (List Nat)) (buf : List (List Nat)) (em : List (List Nat)),
      runBytes sep (buf.flatten, em) chunks.flatten
        = ((consumeChunks sep buf chunks).1.flatten,
           em ++ (consumeChunks sep buf chunks).2) := by
  intro chunks
  induction chunks with
  | nil => intro buf em; simp [runBytes, consumeChunks]
  | cons c cs ih =>
    intro buf em
    have : (c :: cs).flatten = c ++ cs.flatten := by simp
    rw [this, runBytes_append, consumeData_abs, ih]
    simp [consumeChunks]

/-- The flush emits exactly one raw line: the joined pending buffer. -/
theorem connectionLostLines_eq (sep : Nat) (buf : List (List Nat)) :
    connectionLostLines sep buf = [buf.flatten] := by
  have h := consumeData_abs sep [sep] buf []
  have hrun : runBytes sep (buf.flatten, []) [sep]
      = (([] : List Nat), [buf.flatten]) := by
    simp [runBytes, stepByte]
  rw [hrun] at h
  have := congrArg Prod.snd h
  simpa [connectionLostLines] using this.symm

/-- Main characterization: the raw lines emitted over a whole session
(all chunks consumed, then the end-of-connection flush) are exactly the
blocks obtained by splitting the concatenated input on the separator byte. -/
theorem sessionRawLines_eq (sep : Nat) (chunks : List (List Nat)) :
    sessionRawLines sep chunks = bytesSplit sep chunks.flatten := by
  have habs := consumeChunks_abs sep chunks [] []
  have h1 : (consumeChunks sep [] chunks).1.flatten
      = (runBytes sep ([], []) chunks.flatten).1 := by
    have := congrArg Prod.fst habs
    simpa using this.symm
  have h2 : (consumeChunks sep [] chunks).2
      = (runBytes sep ([], []) chunks.flatten).2 := by
    have := congrArg Prod.snd habs
    simpa using this.symm
  have hsplit := runBytes_split sep chunks.flatten [] []
  rw [consHead_nil] at hsplit
  simp only [List.nil_append] at hsplit
  rw [sessionRawLines, connectionLostLines_eq, h1, h2]
  exact hsplit

theorem bytesSplit_of_not_mem (sep : Nat) (l : List Nat) (h : sep ∉ l) :
    bytesSplit sep l = [l] := by
  induction l with
  | nil => simp [bytesSplit]
  | cons b rest ih =>
    have hb : b ≠ sep := by
      intro hb
      exact h (hb ▸ List.mem_cons_self b rest)
    have hrest : sep ∉ rest := fun hm => h (List.mem_cons_of_mem b hm)
    simp [bytesSplit, hb, ih hrest]

theorem bytesSplit_append_sep (sep : Nat) (tail : List Nat) (h : sep ∉ tail) :
    ∀ pre : List Nat,
      bytesSplit sep (pre ++ sep :: tail) = bytesSplit sep pre ++ [tail] := by
  intro pre
  induction pre with
  | nil => simp [bytesSplit, bytesSplit_of_not_mem sep tail h]
  | cons b pre ih =>
    by_cases hb : b = sep
    · subst hb
      simp [bytesSplit, ih]
    · obtain ⟨c0, ct, hsplit⟩ := bytesSplit_exists_cons sep pre
      have : bytesSplit sep (pre ++ sep :: tail) = (c0 :: ct) ++ [tail] := by
        rw [ih, hsplit]
      simp [bytesSplit, hb, this, hsplit]

/-! ### Line transforms

The EOL transforms of `_miniterm.py`: a `Transform` carries the two pure
functions `rx` (text received from the serial port) and `tx` (text to be sent
to the serial port). Python's `str.replace` with single-character patterns is
modelled character-wise. -/

structure Transform where
  rx : List Char → List Char
  tx : List Char → List Char

/-- `LF` ("ENTER sends LF") inherits the do-nothing base `Transform`:
both `rx` and `tx` forward all data unchanged. -/
def LF : Transform :=
  { rx := fun text => text, tx := fun text => text }

/-- `CRLF` ("ENTER sends CR+LF"): `rx` is `text.replace('\r', '')`,
`tx` is `text.replace('\n', '\r\n')`. -/
def CRLF : Transform :=
  { rx := fun text => text.filter (fun c => !(c == '\r')),
    tx := fun text =>
      (text.map (fun c => if c = '\n' then ['\r', '\n'] else [c])).flatten }

/-- `CR` ("ENTER sends CR"): `rx` is `text.replace('\r', '\n')`,
`tx` is `text.replace('\n', '\r')`. -/
def CR : Transform :=
  { rx := fun text => text.map (fun c => if c = '\r' then '\n' else c),
    tx := fun text => text.map (fun c => if c = '\n' then '\r' else c) }

/-! ### UTF-8 codec

Models of Python's `str.encode('utf-8')` and
`bytes.decode(encoding='utf-8', errors="ignore")` as used by the engine. -/

/-- UTF-8 encoding of one character. -/
def utf8EncodeChar (c : Char) : List Nat :=
  let n := c.toNat
  if n < 0x80 then [n]
  else if n < 0x800 then [0xC0 + n / 0x40, 0x80 + n % 0x40]
  else if n < 0x10000 then
    [0xE0 + n / 0x1000, 0x80 + (n / 0x40) % 0x40, 0x80 + n % 0x40]
  else
    [0xF0 + n / 0x40000, 0x80 + (n / 0x1000) % 0x40,
     0x80 + (n / 0x40) % 0x40, 0x80 + n % 0x40]

/-- UTF-8 encoding of a text, `str.encode('utf-8')`. -/
def utf8Encode (text : List Char) : List Nat :=
  (text.map utf8EncodeChar).flatten

/-- Is `b` a UTF-8 continuation byte? -/
def utf8Cont (b : Nat) : Bool :=
  decide (0x80 ≤ b ∧ b < 0xC0)

/-- Fuel-indexed body of the UTF-8 decoder; the fuel only forces structural
termination and is always called with at least the length of the byte list,
so it never runs out on a real input. -/
def utf8DecodeIgnoreFuel : Nat → List Nat → List Char
  | 0, _ => []
  | _, [] => []
  | fuel + 1, b :: rest =>
    if b < 0x80 then Char.ofNat b :: utf8DecodeIgnoreFuel fuel rest
    else if b < 0xC2 then utf8DecodeIgnoreFuel fuel rest
    else if b < 0xE0 then
      match rest with
      | [] => []
      | c :: rest2 =>
        if utf8Cont c then
          Char.ofNat ((b - 0xC0) * 0x40 + (c - 0x80)) :: utf8DecodeIgnoreFuel fuel rest2
        else utf8DecodeIgnoreFuel fuel rest
    else if b < 0xF0 then
      match rest with
      | c :: d :: rest3 =>
        if utf8Cont c && utf8Cont d then
          if 0x800 ≤ (b - 0xE0) * 0x1000 + (c - 0x80) * 0x40 + (d - 0x80) ∧
              ¬(0xD800 ≤ (b - 0xE0) * 0x1000 + (c - 0x80) * 0x40 + (d - 0x80) ∧
                (b - 0xE0) * 0x1000 + (c - 0x80) * 0x40 + (d - 0x80) < 0xE000) then
            Char.ofNat ((b - 0xE0) * 0x1000 + (c - 0x80) * 0x40 + (d - 0x80))
              :: utf8DecodeIgnoreFuel fuel rest3
          else utf8DecodeIgnoreFuel fuel rest
        else utf8DecodeIgnoreFuel fuel rest
      | _ => utf8DecodeIgnoreFuel fuel rest
    else if b < 0xF5 then
      match rest with
      | c :: d :: e :: rest4 =>
        if utf8Cont c && utf8Cont d && utf8Cont e then
          if 0x10000 ≤ (b - 0xF0) * 0x40000 + (c - 0x80) * 0x1000
              + (d - 0x80) * 0x40 + (e - 0x80) ∧
              (b - 0xF0) * 0x40000 + (c - 0x80) * 0x1000
              + (d - 0x80) * 0x40 + (e - 0x80) < 0x110000 then
            Char.ofNat ((b - 0xF0) * 0x40000 + (c - 0x80) * 0x1000
              + (d - 0x80) * 0x40 + (e - 0x80)) :: utf8DecodeIgnoreFuel fuel rest4
          else utf8DecodeIgnoreFuel fuel rest
        else utf8DecodeIgnoreFuel fuel rest
      | _ => utf8DecodeIgnoreFuel fuel rest
    else utf8DecodeIgnoreFuel fuel rest

/-- UTF-8 decoding with invalid sequences dropped, modelling
`bytes.decode(encoding='utf-8', errors="ignore")`: well-formed sequences
(no overlongs, no surrogates, at most U+10FFFF) decode to their code point,
ill-formed bytes are skipped without raising. -/
def utf8DecodeIgnore (l : List Nat) : List Char :=
  utf8DecodeIgnoreFuel l.length l

/-! ### The emitted-line pipeline -/

/-- One emitted line as both sinks receive it: in `_consume_data`,
`raw_line.decode(encoding='utf-8', errors="ignore")` followed by
`self._transform.rx(line)`. -/
def emitLine (t : Transform) (raw : List Nat) : List Char :=
  t.rx (utf8DecodeIgnore raw)

/-- All lines emitted during a session, in order: each raw line produced by
the chunk consumption and the final flush, decoded and passed through `rx`.
Every such line is written to the log file (if open) and scheduled for
display via `write_line_async`. -/
def sessionLines (t : Transform) (sep : Nat) (chunks : List (List Nat)) :
    List (List Char) :=
  (sessionRawLines sep chunks).map (emitLine t)

/-- Content of the session log file after the session: the file is opened
with mode `'w'` in `connection_made`, each emitted line is written verbatim
(`self._output_file_obj.write(line)`, no added framing), and the file is
closed (hence flushed) in `connection_lost`. -/
def logFileContent (t : Transform) (sep : Nat) (chunks : List (List Nat)) :
    List Char :=
  (sessionLines t sep chunks).flatten

/-- `self._newline_sep = transform.tx('\n').encode('utf-8')[0:1]` from
`_SerialOutput.__init__`: computed once per session, in the constructor,
and never reassigned afterwards. -/
def newlineSep (t : Transform) : List Nat :=
  (utf8Encode (t.tx ['\n'])).take 1

/-- One iteration of `_process_input_async`: the submitted prompt line gets
`newline_sym = transform.tx('\n')` appended and is encoded to UTF-8 before
being written to the transport. -/
def processInputLine (t : Transform) (txData : List Char) : List Nat :=
  utf8Encode (txData ++ t.tx ['\n'])

/-! ### Session shutdown model

`miniterm` runs the event loop inside `try ... except KeyboardInterrupt ...
finally ...`. A session ends either because `connection_lost(exc)` ran
(it stores `self._ps.last_exc = exc` and stops the loop) or because a
`KeyboardInterrupt` propagated out of the loop (caught by the `except`
clause; `last_exc` is only ever assigned in `connection_lost`, so it stays
`None` on that path — once the interrupt is caught the loop is stopped, so
no callback can record an error while the `finally` block drains). The
`finally` block prints `ERROR: ...` to stderr and returns exit code 1 when
`ps.last_exc is not None`, otherwise `miniterm` returns 0. -/

/-- How the session ended. -/
inductive SessionEnd where
  | connLost (exc : Option String) : SessionEnd
  | keyboardInterrupt : SessionEnd

/-- `ps.last_exc` as the `finally` block of `miniterm` observes it. -/
def lastExcAfter : SessionEnd → Option String
  | SessionEnd.connLost exc => exc
  | SessionEnd.keyboardInterrupt => none

/-- Exit code computed by the `finally` block of `miniterm`. -/
def minitermExitCode (lastExc : Option String) : Nat :=
  match lastExc with
  | some _ => 1
  | none => 0

/-- Whether the `finally` block of `miniterm` prints an `ERROR:` line. -/
def minitermPrintsError (lastExc : Option String) : Bool :=
  lastExc.isSome

/-- Exit code and error-printed flag of a whole `miniterm` session. -/
def minitermResult (e : SessionEnd) : Nat × Bool :=
  (minitermExitCode (lastExcAfter e), minitermPrintsError (lastExcAfter e))

/-! ### Device listing model -/

/-- The fields of `serial.tools.list_ports_common.ListPortInfo` the engine
reads: the device path and its human-readable description. -/
structure ListPortInfo where
  device : String
  description : String

/-- `_canonic_port_form(port)`: `os.path.realpath(port)` on linux
(`realpath` is the platform's symlink resolution), `None` elsewhere. -/
def canonicPortForm (isLinux : Bool) (realpath : String → String)
    (port : String) : Option String :=
  if isLinux then some (realpath port) else none

/-- `_check_device(port)`: scan the live device listing for the given path,
then for its canonical form; `none` models the `ValueError` raised when the
path does not resolve to a listed serial device. This helper is defined in
`_miniterm.py` but has no caller anywhere in the repository. -/
def checkDevice (isLinux : Bool) (realpath : String → String)
    (serialPorts : List ListPortInfo) (port : String) : Option ListPortInfo :=
  match serialPorts.find? (fun sp => sp.device == port) with
  | some sp => some sp
  | none =>
    match canonicPortForm isLinux realpath port with
    | some canonicPort => serialPorts.find? (fun sp => sp.device == canonicPort)
    | none => none

/-- The device-description resolution at the start of `miniterm`: the first
listing entry with a matching path supplies the description, otherwise the
banner shows `'n/a'` — no error is raised either way. -/
def minitermDeviceDescription (ports : List ListPortInfo) (device : String) :
    String :=
  match ports.find? (fun p => p.device == device) with
  | some p => p.description
  | none => "n/a"

/-- After resolving the description, `miniterm` unconditionally proceeds to
`_async_serial_console` / `create_serial_connection`: no code path between
the description loop and the connection attempt aborts the session, whatever
the device listing contains. -/
def minitermProceedsToConnect (_ports : List ListPortInfo) (_device : String) :
    Bool :=
  true

/-! ### Transform lemmas -/

theorem crlf_tx_cons (c : Char) (cs : List Char) :
    CRLF.tx (c :: cs) = (if c = '\n' then ['\r', '\n'] else [c]) ++ CRLF.tx cs := by
  simp [CRLF]

theorem crlf_rx_append (l1 l2 : List Char) :
    CRLF.rx (l1 ++ l2) = CRLF.rx l1 ++ CRLF.rx l2 := by
  simp [CRLF, List.filter_append]

theorem crlf_rx_tx (s : List Char) (h : '\r' ∉ s) :
    CRLF.rx (CRLF.tx s) = s := by
  induction s with
  | nil => simp [CRLF]
  | cons c cs ih =>
    have hc : c ≠ '\r' := fun hc => h (hc ▸ List.mem_cons_self c cs)
    have hcs : '\r' ∉ cs := fun hm => h (List.mem_cons_of_mem c hm)
    rw [crlf_tx_cons, crlf_rx_append, ih hcs]
    by_cases hn : c = '\n'
    · subst hn
      have : CRLF.rx ['\r', '\n'] = ['\n'] := by decide
      simp [this]
    · have : CRLF.rx [c] = [c] := by
        simp [CRLF, List.filter_cons, hc]
      simp [hn, this]

theorem cr_rx_tx (s : List Char) (h : '\r' ∉ s) :
    CR.rx (CR.tx s) = s := by
  induction s with
  | nil => simp [CR]
  | cons c cs ih =>
    have hc : c ≠ '\r' := fun hc => h (hc ▸ List.mem_cons_self c cs)
    have hcs : '\r' ∉ cs := fun hm => h (List.mem_cons_of_mem c hm)
    have := ih hcs
    by_cases hn : c = '\n'
    · subst hn
      simp_all [CR]
    · simp_all [CR, hn, hc]

theorem crlf_tx_no_lf (s : List Char) (h : '\n' ∉ s) : CRLF.tx s = s := by
  induction s with
  | nil => simp [CRLF]
  | cons c cs ih =>
    have hc : c ≠ '\n' := fun hc => h (hc ▸ List.mem_cons_self c cs)
    have hcs : '\n' ∉ cs := fun hm => h (List.mem_cons_of_mem c hm)
    rw [crlf_tx_cons, if_neg hc, ih hcs]
    simp

theorem cr_tx_no_lf (s : List Char) (h : '\n' ∉ s) : CR.tx s = s := by
  induction s with
  | nil => simp [CR]
  | cons c cs ih =>
    have hc : c ≠ '\n' := fun hc => h (hc ▸ List.mem_cons_self c cs)
    have hcs : '\n' ∉ cs := fun hm => h (List.mem_cons_of_mem c hm)
    have := ih hcs
    simp_all [CR, hc]

/-! ### Claim theorems -/

theorem sessionLines_eq (t : Transform) (sep : Nat) (chunks : List (List Nat)) :
    sessionLines t sep chunks = (bytesSplit sep chunks.flatten).map (emitLine t) := by
  simp only [sessionLines, sessionRawLines_eq]

/-- C1: chunk-boundary independence of the Line Reassembler. Feeding any
partitioning of a byte sequence to `_consume_data` in order, followed by the
end-of-connection flush, yields the same ordered sequence of emitted lines as
feeding the whole sequence as one chunk; in particular `b"AB\nCD\nE"` as one
chunk or as `b"A"`, `b"B\n"`, `b"CD\n"`, `b"E"` both yield the lines `"AB"`,
`"CD"` plus the final flushed `"E"`. -/
theorem chunk_boundary_independence :
    (∀ (t : Transform) (sep : Nat) (chunks1 chunks2 : List (List Nat)),
        chunks1.flatten = chunks2.flatten →
          sessionLines t sep chunks1 = sessionLines t sep chunks2)
      ∧ sessionLines LF 10 [[65, 66, 10, 67, 68, 10, 69]]
          = [['A', 'B'], ['C', 'D'], ['E']]
      ∧ sessionLines LF 10 [[65], [66, 10], [67, 68, 10], [69]]
          = [['A', 'B'], ['C', 'D'], ['E']] := by
  refine ⟨fun t sep c1 c2 h => ?_, by decide, by decide⟩
  rw [sessionLines_eq, sessionLines_eq, h]

/-- Witness for C1: the partitioning from the claim against the single-chunk
delivery of the same bytes. -/
theorem chunk_boundary_independence_witness :
    ([[65], [66, 10], [67, 68, 10], [69]] : List (List Nat)).flatten
        = ([[65, 66, 10, 67, 68, 10, 69]] : List (List Nat)).flatten
      ∧ sessionLines LF 10 [[65], [66, 10], [67, 68, 10], [69]]
          = sessionLines LF 10 [[65, 66, 10, 67, 68, 10, 69]] :=
  ⟨rfl, chunk_boundary_independence.1 LF 10 _ _ rfl⟩

/-- C2: flush guarantee. When the received stream ends with unterminated
trailing bytes after the last separator, the session (the consume calls
followed by the single synthetic-separator flush of `connection_lost`) emits
exactly the normally terminated lines followed by the trailing bytes as one
final line — the residue appears exactly once and never before the normal
lines. -/
theorem flush_guarantee (t : Transform) (sep : Nat) (chunks : List (List Nat))
    (pre residue : List Nat) (hjoin : chunks.flatten = pre ++ sep :: residue)
    (hres : sep ∉ residue) :
    sessionLines t sep chunks
      = (bytesSplit sep pre).map (emitLine t) ++ [emitLine t residue] := by
  rw [sessionLines_eq, hjoin, bytesSplit_append_sep sep residue hres pre]
  simp

/-- Witness for C2: stream `b"A\nXY"`, trailing `"XY"` after the last
separator, emitted once after the line `"A"`. -/
theorem flush_guarantee_witness :
    ([[65, 10, 88, 89]] : List (List Nat)).flatten = [65] ++ 10 :: [88, 89]
      ∧ ((10 : Nat) ∉ ([88, 89] : List Nat))
      ∧ sessionLines LF 10 [[65, 10, 88, 89]]
          = (bytesSplit 10 [65]).map (emitLine LF) ++ [emitLine LF [88, 89]] :=
  ⟨rfl, by decide, flush_guarantee LF 10 [[65, 10, 88, 89]] [65] [88, 89] rfl (by decide)⟩

/-- C3: round-trip law of the Line Transform. For each of the three EOL
conventions, `rx (tx s) = s` for every logical text `s` containing no
carriage return. -/
theorem transform_round_trip (t : Transform) (s : List Char)
    (ht : t = CR ∨ t = LF ∨ t = CRLF) (hs : '\r' ∉ s) :
    t.rx (t.tx s) = s := by
  rcases ht with h | h | h <;> subst h
  · exact cr_rx_tx s hs
  · rfl
  · exact crlf_rx_tx s hs

/-- Witness for C3: the CRLF convention on the two-line text `"a\nb"`. -/
theorem transform_round_trip_witness :
    ('\r' ∉ (['a', '\n', 'b'] : List Char))
      ∧ CRLF.rx (CRLF.tx ['a', '\n', 'b']) = ['a', '\n', 'b'] :=
  ⟨by decide,
   transform_round_trip CRLF ['a', '\n', 'b'] (Or.inr (Or.inr rfl)) (by decide)⟩

/-- C4: shutdown classification. A session ended by a device error (recorded
as `last_exc` by `connection_lost`) exits with code 1 and prints the error;
a session ended by a keyboard interrupt exits with code 0 and prints no
error — on that path `last_exc` stays `None`, since it is assigned only in
`connection_lost` and the loop is already stopped while the `finally` block
drains, so a late device error cannot change the classification. -/
theorem shutdown_classification :
    (∀ msg : String, minitermResult (SessionEnd.connLost (some msg)) = (1, true))
      ∧ minitermResult SessionEnd.keyboardInterrupt = (0, false)
      ∧ lastExcAfter SessionEnd.keyboardInterrupt = none :=
  ⟨fun _ => rfl, rfl, rfl⟩

/-- C5 counterexample: with EOL=`lf` and a log file configured, after the
device sends `b"one\ntwo\n"` and disconnects with a trailing unterminated
`"three"`, the log file contains `"onetwothree"` — the decoded lines are
written with no separator between records — and not `"one\ntwo\nthree"` as
the claim states. -/
theorem log_file_newline_counterexample :
    logFileContent LF 10 [[111, 110, 101, 10, 116, 119, 111, 10], [116, 104, 114, 101, 101]]
        = ['o', 'n', 'e', 't', 'w', 'o', 't', 'h', 'r', 'e', 'e']
      ∧ logFileContent LF 10 [[111, 110, 101, 10, 116, 119, 111, 10], [116, 104, 114, 101, 101]]
        ≠ ['o', 'n', 'e', '\n', 't', 'w', 'o', '\n', 't', 'h', 'r', 'e', 'e'] :=
  ⟨by decide, by decide⟩

/-- C5 amended: the log file receives one `write(line)` per decoded logical
line, in order (`"one"`, `"two"`, flushed `"three"` in the scenario), but the
writes carry no framing at all, so the file content is the concatenation of
the line texts — `"onetwothree"` for the scenario. -/
theorem log_file_content_amended :
    sessionLines LF 10 [[111, 110, 101, 10, 116, 119, 111, 10], [116, 104, 114, 101, 101]]
        = [['o', 'n', 'e'], ['t', 'w', 'o'], ['t', 'h', 'r', 'e', 'e']]
      ∧ logFileContent LF 10 [[111, 110, 101, 10, 116, 119, 111, 10], [116, 104, 114, 101, 101]]
        = ['o', 'n', 'e', 't', 'w', 'o', 't', 'h', 'r', 'e', 'e']
      ∧ ∀ (t : Transform) (sep : Nat) (chunks : List (List Nat)),
          logFileContent t sep chunks = (sessionLines t sep chunks).flatten :=
  ⟨by decide, by decide, fun _ _ _ => rfl⟩

/-- C6: outbound write path. For a line of prompt input (no embedded
newline), one loop iteration of `_process_input_async` writes exactly the
UTF-8 bytes of the tx-encoded line followed by the convention's newline; in
particular with EOL=`crlf`, submitting `"ping"` sends `b"ping\r\n"`. -/
theorem outbound_write_path :
    (∀ (t : Transform) (s : List Char), (t = CR ∨ t = LF ∨ t = CRLF) →
        '\n' ∉ s → processInputLine t s = utf8Encode (t.tx s ++ t.tx ['\n']))
      ∧ processInputLine CRLF ['p', 'i', 'n', 'g'] = [112, 105, 110, 103, 13, 10] := by
  refine ⟨fun t s ht hs => ?_, by decide⟩
  rcases ht with h | h | h <;> subst h
  · rw [processInputLine, cr_tx_no_lf s hs]
  · rfl
  · rw [processInputLine, crlf_tx_no_lf s hs]

/-- Witness for C6: the prompt line `"ping"` under the CRLF convention. -/
theorem outbound_write_path_witness :
    ('\n' ∉ (['p', 'i', 'n', 'g'] : List Char))
      ∧ processInputLine CRLF ['p', 'i', 'n', 'g']
          = utf8Encode (CRLF.tx ['p', 'i', 'n', 'g'] ++ CRLF.tx ['\n']) :=
  ⟨by decide,
   outbound_write_path.1 CRLF ['p', 'i', 'n', 'g'] (Or.inr (Or.inr rfl)) (by decide)⟩

/-- C7: separator-byte derivation. `self._newline_sep`, computed once in
`_SerialOutput.__init__` as the first byte of the UTF-8 encoding of
`transform.tx('\n')` and never reassigned, is the single byte `b"\n"` for
the `lf` convention and `b"\r"` for both the `cr` and `crlf` conventions. -/
theorem separator_byte_derivation :
    newlineSep LF = [10] ∧ newlineSep CR = [13] ∧ newlineSep CRLF = [13]
      ∧ (newlineSep LF).length = 1 ∧ (newlineSep CR).length = 1
      ∧ (newlineSep CRLF).length = 1 :=
  ⟨by decide, by decide, by decide, by decide, by decide, by decide⟩

/-- C8: byte conservation of the Reassembler. After any sequence of consume
calls from the initial empty pending buffer, concatenating the emitted raw
lines in emission order, each followed by one separator byte, and then the
pending-buffer content, reconstructs exactly the concatenation of all
consumed bytes: no loss, no duplication, order preserved. -/
theorem byte_conservation (sep : Nat) (chunks : List (List Nat)) :
    ((consumeChunks sep [] chunks).2.map (fun l => l ++ [sep])).flatten
        ++ (consumeChunks sep [] chunks).1.flatten
      = chunks.flatten := by
  have habs := consumeChunks_abs sep chunks [] []
  have h1 : (consumeChunks sep [] chunks).1.flatten
      = (runBytes sep ([], []) chunks.flatten).1 := by
    have := congrArg Prod.fst habs
    simpa using this.symm
  have h2 : (consumeChunks sep [] chunks).2
      = (runBytes sep ([], []) chunks.flatten).2 := by
    have := congrArg Prod.snd habs
    simpa using this.symm
  rw [h1, h2]
  have := runBytes_conserve sep chunks.flatten [] []
  simpa using this

/-- C9 counterexample: with an empty live device listing, `_check_device`
would reject the path `/dev/ttyUSB0`, yet the session start of `miniterm`
still proceeds to the connection attempt (showing description `'n/a'`): the
claimed open-time validation does not gate the session. -/
theorem device_validation_counterexample :
    checkDevice false (fun p => p) [] "/dev/ttyUSB0" = none
      ∧ minitermProceedsToConnect [] "/dev/ttyUSB0" = true
      ∧ minitermDeviceDescription [] "/dev/ttyUSB0" = "n/a" :=
  ⟨rfl, rfl, rfl⟩

/-- C9 amended: `_check_device` implements the described validation against
the live listing (including canonical-path resolution on linux) and rejects
unresolved paths, but it has no caller: `miniterm` only resolves a banner
description, defaulting to `'n/a'`, and proceeds to connect regardless of
the listing. -/
theorem device_validation_amended (ports : List ListPortInfo) (device : String)
    (rp : String → String)
    (h : ports.find? (fun p => p.device == device) = none) :
    checkDevice false rp ports device = none
      ∧ minitermDeviceDescription ports device = "n/a"
      ∧ minitermProceedsToConnect ports device = true := by
  refine ⟨?_, ?_, rfl⟩
  · simp [checkDevice, h, canonicPortForm]
  · simp [minitermDeviceDescription, h]

/-- Witness for the amended C9, at the empty listing. -/
theorem device_validation_amended_witness :
    (([] : List ListPortInfo).find? (fun p => p.device == "/dev/ttyUSB0") = none)
      ∧ (checkDevice false (fun p => p) [] "/dev/ttyUSB0" = none
          ∧ minitermDeviceDescription [] "/dev/ttyUSB0" = "n/a"
          ∧ minitermProceedsToConnect [] "/dev/ttyUSB0" = true) :=
  ⟨rfl, device_validation_amended [] "/dev/ttyUSB0" (fun p => p) rfl⟩

/-- C10: the end-of-connection flush is unconditional. When the received
stream ends exactly at a separator byte, connection loss still emits one
additional line: the empty residue, decoded and passed through `rx` (the
empty text for each of the three conventions), and that line goes to the log
and display sinks like any other — rather than nothing being emitted. -/
theorem flush_empty_line (t : Transform) (sep : Nat)
    (chunks : List (List Nat)) (data : List Nat)
    (h : chunks.flatten = data ++ [sep]) :
    sessionLines t sep chunks
        = (bytesSplit sep data).map (emitLine t) ++ [emitLine t []]
      ∧ emitLine LF [] = [] ∧ emitLine CR [] = [] ∧ emitLine CRLF [] = [] := by
  refine ⟨?_, rfl, rfl, rfl⟩
  have h2 : data ++ [sep] = data ++ sep :: ([] : List Nat) := rfl
  rw [sessionLines_eq, h, h2, bytesSplit_append_sep sep [] (by simp) data]
  simp

/-- Witness for C10: stream `b"AB\n"` ending exactly at the separator. -/
theorem flush_empty_line_witness :
    ([[65, 66, 10]] : List (List Nat)).flatten = [65, 66] ++ [10]
      ∧ sessionLines LF 10 [[65, 66, 10]]
          = (bytesSplit 10 [65, 66]).map (emitLine LF) ++ [emitLine LF []] :=
  ⟨rfl, (flush_empty_line LF 10 [[65, 66, 10]] [65, 66] rfl).1⟩

end Miniterm
